import Mathlib

/-!
Verification development for the lightbrite-eq audio pipeline.

The source is a small audio equalizer: a static biquad filter configuration
(src/src/filterConfig.ts), an offline rendering pass and a 16-bit PCM WAV
encoder plus host-side gating and filename logic
(src/src/components/AudioProcessor.tsx).

Samples are modelled as rationals (the encoder's clamp, scale and truncate
steps are exact on the values the claims mention).  Byte stores of the
encoder's `DataView` are modelled as function updates on `Nat → Nat`.
-/

set_option maxRecDepth 8000

namespace LightbriteEq

/-- Filter types, from src/src/filterConfig.ts (`FilterType`). -/
inductive FilterType
  | peaking
  | lowshelf
  | highshelf
  | lowpass
  | highpass
  deriving DecidableEq, Repr

/-- One filter configuration entry, from src/src/filterConfig.ts (`FilterConfig`).
`Q` is optional there (`Q?: number`); absent means the filter-type default. -/
structure FilterConfig where
  type : FilterType
  freq : ℚ
  gain : ℚ
  Q : Option ℚ
  deriving DecidableEq, Repr

/-- The static filter list from src/src/filterConfig.ts (`filters`). -/
def filters : List FilterConfig :=
  [ { type := FilterType.peaking, freq := 170, gain := 9.9, Q := some 1.76 },
    { type := FilterType.peaking, freq := 662, gain := -8.0, Q := some 3.0 },
    { type := FilterType.peaking, freq := 3000, gain := -11.2, Q := some 2.76 },
    { type := FilterType.highshelf, freq := 7410, gain := 10, Q := none } ]

/-- Multi-channel sample buffer, mirroring the Web Audio `AudioBuffer` fields the
source reads: `numberOfChannels`, `length` (frame count), `sampleRate`, and the
per-channel data (`copyFromChannel`). -/
structure SampleBuffer where
  channelCount : Nat
  frameCount : Nat
  sampleRate : Nat
  channels : List (List ℚ)
  deriving DecidableEq, Repr

/-- The `AudioBuffer` invariant: one sample list per channel, each of exactly
`frameCount` samples (the platform guarantees this for real buffers). -/
def SampleBuffer.WF (b : SampleBuffer) : Prop :=
  b.channels.length = b.channelCount ∧ ∀ ch ∈ b.channels, ch.length = b.frameCount

instance (b : SampleBuffer) : Decidable b.WF := by
  unfold SampleBuffer.WF
  infer_instance

/-- Byte memory of the encoder's `ArrayBuffer` (JS zero-initializes it). -/
def Mem : Type := Nat → Nat

/-- Fresh `ArrayBuffer` contents: all zero bytes. -/
def zeroMem : Mem := fun _ => 0

/-- `DataView.setUint8`: store the value (mod 256) at offset `off`. -/
def setUint8 (m : Mem) (off v : Nat) : Mem :=
  fun k => if k = off then v % 256 else m k

/-- `DataView.setUint16(off, v, true)`: little-endian 16-bit store. -/
def setUint16LE (m : Mem) (off v : Nat) : Mem :=
  setUint8 (setUint8 m off (v % 256)) (off + 1) (v / 256 % 256)

/-- `DataView.setUint32(off, v, true)`: little-endian 32-bit store. -/
def setUint32LE (m : Mem) (off v : Nat) : Mem :=
  setUint8 (setUint8 (setUint8 (setUint8 m off (v % 256)) (off + 1) (v / 256 % 256))
    (off + 2) (v / 65536 % 256)) (off + 3) (v / 16777216 % 256)

/-- The encoder's `writeString` helper body: write each character's code unit
(one byte; all header strings are ASCII). -/
def writeChars (m : Mem) (off : Nat) : List Char → Mem
  | [] => m
  | c :: cs => writeChars (setUint8 m off c.toNat) (off + 1) cs

/-- The encoder's `writeString(offset, string)` (source lines 197–201). -/
def writeString (m : Mem) (off : Nat) (s : String) : Mem :=
  writeChars m off s.toList

/-- Truncation toward zero of a rational: JS `ToIntegerOrInfinity`, applied by
`DataView.setInt16` to the stored number. -/
def truncQ (q : ℚ) : Int :=
  if q < 0 then -(((-q.num).toNat / q.den : Nat) : Int) else ((q.num.toNat / q.den : Nat) : Int)

/-- `Math.max(-1, Math.min(1, s))` (source line 224). -/
def clampSample (s : ℚ) : ℚ := max (-1) (min 1 s)

/-- The encoder's per-sample 16-bit value (source lines 224–225 plus the
integer conversion done by `setInt16`):
clamp to `[-1, 1]`, scale negatives by `0x8000` and non-negatives by `0x7FFF`,
then truncate toward zero. -/
def pcm16 (s : ℚ) : Int :=
  if clampSample s < 0 then truncQ (clampSample s * 32768) else truncQ (clampSample s * 32767)

/-- `DataView.setInt16(off, v, true)`: wrap to 16 bits two's complement and
store little-endian. -/
def setInt16LE (m : Mem) (off : Nat) (v : Int) : Mem :=
  setUint8 (setUint8 m off ((v % 65536).toNat % 256)) (off + 1) ((v % 65536).toNat / 256 % 256)

/-- Inner frame loop of the encoder for one channel (source lines 223–227):
sample `j` of the channel, counting from current index `i`, lands at byte offset
`44 + (i + j)·blockAlign + chOff`. -/
def writeFrames (blockAlign chOff : Nat) : Mem → Nat → List ℚ → Mem
  | m, _, [] => m
  | m, i, s :: rest =>
      writeFrames blockAlign chOff
        (setInt16LE m (44 + i * blockAlign + chOff) (pcm16 s)) (i + 1) rest

/-- Outer channel loop of the encoder (source lines 221–228): channel `c` writes
its frames with channel byte offset `c · bytesPerSample` (`bytesPerSample = 2`).
Under the `AudioBuffer` invariant (`SampleBuffer.WF`) iterating the channel
lists is exactly the source's `copyFromChannel` + index loop. -/
def writeData (blockAlign : Nat) : Mem → Nat → List (List ℚ) → Mem
  | m, _, [] => m
  | m, c, ch :: rest => writeData blockAlign (writeFrames blockAlign (c * 2) m 0 ch) (c + 1) rest

/-- The header-writing part of `audioBufferToWav` (source lines 203–215),
applied to the zeroed buffer.  `blockAlign = numChannels * 2`, `bitDepth = 16`. -/
def wavHeaderMem (numChannels frameCount sampleRate : Nat) : Mem :=
  let blockAlign := numChannels * 2
  let m1 := writeString zeroMem 0 ("RIFF")
  let m2 := setUint32LE m1 4 (36 + frameCount * blockAlign)
  let m3 := writeString m2 8 ("WAVE")
  let m4 := writeString m3 12 ("fmt ")
  let m5 := setUint32LE m4 16 16
  let m6 := setUint16LE m5 20 1
  let m7 := setUint16LE m6 22 numChannels
  let m8 := setUint32LE m7 24 sampleRate
  let m9 := setUint32LE m8 28 (sampleRate * blockAlign)
  let m10 := setUint16LE m9 32 blockAlign
  let m11 := setUint16LE m10 34 16
  let m12 := writeString m11 36 ("data")
  setUint32LE m12 40 (frameCount * blockAlign)

/-- Final byte memory of `audioBufferToWav`: header writes, then the data loop. -/
def wavMem (buf : SampleBuffer) : Mem :=
  writeData (buf.channelCount * 2)
    (wavHeaderMem buf.channelCount buf.frameCount buf.sampleRate) 0 buf.channels

/-- `audioBufferToWav` (source lines 184–231): the returned `Uint8Array` viewed
as the list of the `44 + buffer.length · blockAlign` bytes of the
`ArrayBuffer`. -/
def audioBufferToWav (buf : SampleBuffer) : List Nat :=
  (List.range (44 + buf.frameCount * (buf.channelCount * 2))).map (wavMem buf)

/-- Little-endian byte list of a 32-bit field, as the spec's header table
spells it. -/
def le32 (v : Nat) : List Nat := [v % 256, v / 256 % 256, v / 65536 % 256, v / 16777216 % 256]

/-- Little-endian byte list of a 16-bit field. -/
def le16 (v : Nat) : List Nat := [v % 256, v / 256 % 256]

/-- Modelled from the spec: the literal 44-byte header layout of spec §4.4
("RIFF", 36+dataBytes, "WAVE", "fmt ", 16, 1, channelCount, sampleRate,
byte rate, blockAlign, 16, "data", dataBytes), written from the spec's words
as the refinement target for the encoder's header. -/
def specHeaderBytes (channelCount frameCount sampleRate : Nat) : List Nat :=
  [82, 73, 70, 70] ++ le32 (36 + frameCount * (channelCount * 2))
    ++ [87, 65, 86, 69] ++ [102, 109, 116, 32]
    ++ le32 16 ++ le16 1 ++ le16 channelCount ++ le32 sampleRate
    ++ le32 (sampleRate * (channelCount * 2)) ++ le16 (channelCount * 2) ++ le16 16
    ++ [100, 97, 116, 97] ++ le32 (frameCount * (channelCount * 2))

/-- The comparison used by `processAudio`'s sort (source line 61):
`(a, b) => a.freq - b.freq`, i.e. ascending by `freq`. -/
def freqLE (a b : FilterConfig) : Prop := a.freq ≤ b.freq

instance : DecidableRel freqLE := fun a b => inferInstanceAs (Decidable (a.freq ≤ b.freq))

instance : IsTotal FilterConfig freqLE := ⟨fun a b => le_total a.freq b.freq⟩

instance : IsTrans FilterConfig freqLE := ⟨fun _ _ _ h1 h2 => le_trans h1 h2⟩

/-- `[...filters].sort((a, b) => a.freq - b.freq)` (source line 61): a stable
ascending sort by `freq` (JS `Array.prototype.sort` is stable); insertion sort
is the extensionally equal stable model. -/
def sortFilters (l : List FilterConfig) : List FilterConfig :=
  l.insertionSort freqLE

/-- The five biquad coefficients of spec §4.1/§3. -/
structure BiquadCoefficients where
  b0 : ℚ
  b1 : ℚ
  b2 : ℚ
  a1 : ℚ
  a2 : ℚ
  deriving DecidableEq, Repr

/-- Biquad internal state `{x1, x2, y1, y2}` of spec §3. -/
structure BiquadState where
  x1 : ℚ
  x2 : ℚ
  y1 : ℚ
  y2 : ℚ
  deriving DecidableEq, Repr

/-- Modelled from the spec: one step of the §4.1 recurrence
`y[n] = b0·x[n] + b1·x[n-1] + b2·x[n-2] - a1·y[n-1] - a2·y[n-2]`
(the BiquadStage sample loop is delegated to the host audio runtime and is
absent from src/). -/
def biquadStep (c : BiquadCoefficients) (st : BiquadState) (x : ℚ) : ℚ × BiquadState :=
  let y := c.b0 * x + c.b1 * st.x1 + c.b2 * st.x2 - c.a1 * st.y1 - c.a2 * st.y2
  (y, ⟨x, st.x1, y, st.y1⟩)

/-- Modelled from the spec: run the §4.1 recurrence over a sample sequence in
index order, threading the state. -/
def biquadRun (c : BiquadCoefficients) : BiquadState → List ℚ → List ℚ
  | _, [] => []
  | st, x :: xs =>
      (biquadStep c st x).1 :: biquadRun c (biquadStep c st x).2 xs

/-- Modelled from the spec: one BiquadStage applied to one channel, state reset
to zero at the start of the channel (spec §3). -/
def biquadApply (c : BiquadCoefficients) (xs : List ℚ) : List ℚ :=
  biquadRun c ⟨0, 0, 0, 0⟩ xs

/-- Modelled from the spec: the FilterChain of §4.2 — the stages, in the stably
freq-sorted order, applied in series (each stage's full output is the next
stage's input).  The coefficient computation of §4.1 uses transcendental
cookbook formulas and is abstracted as the parameter `coeffOf` giving the five
coefficients per config and sample rate (identical for every channel). -/
def applyChain (coeffOf : FilterConfig → Nat → BiquadCoefficients)
    (cfgs : List FilterConfig) (sampleRate : Nat) (xs : List ℚ) : List ℚ :=
  (sortFilters cfgs).foldl (fun ys cfg => biquadApply (coeffOf cfg sampleRate) ys) xs

/-- Pipeline error taxonomy entry needed here (spec §7). -/
inductive PipelineError
  | emptyBufferError
  deriving DecidableEq, Repr

/-- Modelled from the spec: the OfflineRenderer of §4.3 (in the source this is
delegated to the host `OfflineAudioContext`, absent from src/): fails fast with
`EmptyBufferError` when `channelCount` or `frameCount` is zero, otherwise
renders every channel through the same FilterChain and preserves
`channelCount`, `frameCount` and `sampleRate`. -/
def render (coeffOf : FilterConfig → Nat → BiquadCoefficients) (cfgs : List FilterConfig)
    (buf : SampleBuffer) : Except PipelineError SampleBuffer :=
  if buf.channelCount = 0 ∨ buf.frameCount = 0 then Except.error PipelineError.emptyBufferError
  else Except.ok
    { channelCount := buf.channelCount
      frameCount := buf.frameCount
      sampleRate := buf.sampleRate
      channels := buf.channels.map (applyChain coeffOf cfgs buf.sampleRate) }

/-- The render-then-encode pipeline of `handleDrop` (source lines 108–111):
on a render failure nothing is encoded. -/
def renderAndEncode (coeffOf : FilterConfig → Nat → BiquadCoefficients)
    (cfgs : List FilterConfig) (buf : SampleBuffer) : Except PipelineError (List Nat) :=
  (render coeffOf cfgs buf).map audioBufferToWav

/-- `MAX_FILE_SIZE` (source line 6): 1 GiB. -/
def MAX_FILE_SIZE : Nat := 1024 * 1024 * 1024

/-- `SUPPORTED_AUDIO_TYPES` (source lines 9–20). -/
def SUPPORTED_AUDIO_TYPES : List String :=
  [ "audio/wav", "audio/mpeg", "audio/mp3", "audio/ogg", "audio/aac",
    "audio/m4a", "audio/x-m4a", "audio/mp4", "audio/webm", "audio/flac" ]

/-- Host-side rejection reasons of the `handleDrop` gate. -/
inductive HostRejection
  | unsupportedFormat
  | oversize
  deriving DecidableEq, Repr

/-- The gating part of `handleDrop` (source lines 88–97): first the MIME-type
check, then the size check `file.size > MAX_FILE_SIZE`; `none` means the file
passes both gates and the core is invoked. -/
def fileGate (mime : String) (size : Nat) : Option HostRejection :=
  if mime ∉ SUPPORTED_AUDIO_TYPES then some HostRejection.unsupportedFormat
  else if MAX_FILE_SIZE < size then some HostRejection.oversize
  else none

/-- `String.lastIndexOf` on the character list: index of the last occurrence. -/
def lastIndexOf (c : Char) : List Char → Option Nat
  | [] => none
  | x :: xs =>
      match lastIndexOf c xs with
      | some i => some (i + 1)
      | none => if x = c then some 0 else none

/-- The download filename derivation of `handleDrop` (source lines 115–118):
insert "-EQ" immediately before the last dot, or append it when the name has
no dot. -/
def newFileName (name : List Char) : List Char :=
  match lastIndexOf ('.') name with
  | some i => name.take i ++ ("-EQ").toList ++ name.drop i
  | none => name ++ ("-EQ").toList

/-- One run's effect on the store of JS arrays (indexed by reference), for the
frame condition of `processAudio` (source line 61): `[...filters]` allocates a
fresh array holding the same entries, and `.sort` then mutates that copy in
place; the pair returned is (store after, reference of the copy). -/
def spreadSort (h : List (List FilterConfig)) (src : Nat) :
    List (List FilterConfig) × Nat :=
  let copyRef := h.length
  let h1 := h ++ [h.getD src []]
  (h1.set copyRef (sortFilters (h1.getD copyRef [])), copyRef)

/-- `n` runs of `processAudio`'s sort step over the store, the module-level
`filters` array living at reference 0. -/
def runsFrom (h : List (List FilterConfig)) : Nat → List (List FilterConfig)
  | 0 => h
  | n + 1 => (spreadSort (runsFrom h n) 0).1

/-- A concrete coefficient assignment (the identity stage `b0 = 1`), used to
instantiate the abstract coefficient parameter on concrete runs. -/
def coeffOf0 : FilterConfig → Nat → BiquadCoefficients := fun _ _ => ⟨1, 0, 0, 0, 0⟩

/-- A concrete 2-channel, 2-frame buffer. -/
def demoBuf2 : SampleBuffer := ⟨2, 2, 8, [[1/2, -(1/2)], [1/4, 1]]⟩

/-- A concrete 1-channel, 2-frame buffer. -/
def demoBuf1 : SampleBuffer := ⟨1, 2, 10, [[1, 0]]⟩

/-- The render result of `demoBuf1` under `coeffOf0` (identity stages). -/
def demoOut1 : SampleBuffer := ⟨1, 2, 10, [[1, 0]]⟩

/-- A decoded buffer with zero frames. -/
def emptyBuf : SampleBuffer := ⟨2, 0, 44100, [[], []]⟩

/-! ### Header bytes (claim C1) -/

theorem writeFrames_lt44 (ba off : Nat) :
    ∀ (ch : List ℚ) (m : Mem) (i k : Nat), k < 44 →
      writeFrames ba off m i ch k = m k := by
  intro ch
  induction ch with
  | nil => intro m i k _; rfl
  | cons s rest ih =>
      intro m i k hk
      show writeFrames ba off (setInt16LE m (44 + i * ba + off) (pcm16 s)) (i + 1) rest k = m k
      rw [ih _ _ _ hk]
      have h1 : k ≠ 44 + i * ba + off := by omega
      have h2 : k ≠ 44 + i * ba + off + 1 := by omega
      simp [setInt16LE, setUint8, h1, h2]

theorem writeData_lt44 (ba : Nat) :
    ∀ (chs : List (List ℚ)) (m : Mem) (c k : Nat), k < 44 →
      writeData ba m c chs k = m k := by
  intro chs
  induction chs with
  | nil => intro m c k _; rfl
  | cons ch rest ih =>
      intro m c k hk
      show writeData ba (writeFrames ba (c * 2) m 0 ch) (c + 1) rest k = m k
      rw [ih _ _ _ hk, writeFrames_lt44 _ _ _ _ _ _ hk]

theorem wavMem_header (buf : SampleBuffer) (k : Nat) (hk : k < 44) :
    wavMem buf k = wavHeaderMem buf.channelCount buf.frameCount buf.sampleRate k :=
  writeData_lt44 _ _ _ _ _ hk

theorem headerMem_eval (nc fc sr : Nat) :
    (List.range 44).map (wavHeaderMem nc fc sr) = specHeaderBytes nc fc sr := by
  simp [wavHeaderMem, writeString, writeChars, setUint32LE, setUint16LE, setUint8, zeroMem,
    specHeaderBytes, le32, le16, List.range_succ]

/-- C1: the encoder output is exactly `44 + frameCount·channelCount·2` bytes and
its first 44 bytes are the literal little-endian WAV header of spec §4.4:
"RIFF", 36+dataBytes, "WAVE", "fmt ", 16, 1 (PCM), channelCount, sampleRate,
byte rate, blockAlign = channelCount·2, 16 bits, "data", dataBytes. -/
theorem wav_header_exact (buf : SampleBuffer) :
    (audioBufferToWav buf).length = 44 + buf.frameCount * buf.channelCount * 2 ∧
    (audioBufferToWav buf).take 44
      = specHeaderBytes buf.channelCount buf.frameCount buf.sampleRate := by
  constructor
  · simp [audioBufferToWav, Nat.mul_assoc]
  · have h1 : (audioBufferToWav buf).take 44 = (List.range 44).map (wavMem buf) := by
      unfold audioBufferToWav
      rw [← List.map_take, List.take_range, Nat.min_eq_left (by omega)]
    rw [h1, ← headerMem_eval buf.channelCount buf.frameCount buf.sampleRate]
    apply List.map_congr_left
    intro k hk
    exact wavMem_header buf k (List.mem_range.mp hk)

/-! ### Data-section layout (claim C6) -/

theorem resid_eq (ba i j r1 r2 : Nat) (h1 : r1 < ba) (h2 : r2 < ba)
    (he : 44 + i * ba + r1 = 44 + j * ba + r2) : r1 = r2 ∧ i = j := by
  have he' : i * ba + r1 = j * ba + r2 := by omega
  have hm := congrArg (fun x => x % ba) he'
  simp only [] at hm
  rw [Nat.mul_comm i ba, Nat.mul_comm j ba, Nat.mul_add_mod, Nat.mul_add_mod,
    Nat.mod_eq_of_lt h1, Nat.mod_eq_of_lt h2] at hm
  refine ⟨hm, ?_⟩
  have hij : i * ba = j * ba := by omega
  exact Nat.eq_of_mul_eq_mul_right (by omega) hij

theorem resid_ne (ba i j r1 r2 : Nat) (h1 : r1 < ba) (h2 : r2 < ba) (hne : r1 ≠ r2) :
    44 + i * ba + r1 ≠ 44 + j * ba + r2 :=
  fun he => hne (resid_eq ba i j r1 r2 h1 h2 he).1

theorem writeFrames_skip (ba off : Nat) :
    ∀ (ch : List ℚ) (m : Mem) (i0 k : Nat),
      (∀ j, j < ch.length →
        k ≠ 44 + (i0 + j) * ba + off ∧ k ≠ 44 + (i0 + j) * ba + off + 1) →
      writeFrames ba off m i0 ch k = m k := by
  intro ch
  induction ch with
  | nil => intro m i0 k _; rfl
  | cons s rest ih =>
      intro m i0 k h
      show writeFrames ba off (setInt16LE m (44 + i0 * ba + off) (pcm16 s)) (i0 + 1) rest k = m k
      have hrest : ∀ j, j < rest.length →
          k ≠ 44 + (i0 + 1 + j) * ba + off ∧ k ≠ 44 + (i0 + 1 + j) * ba + off + 1 := by
        intro j hj
        have h' := h (j + 1) (by simp; omega)
        rw [show i0 + (j + 1) = i0 + 1 + j by omega] at h'
        exact h'
      rw [ih _ _ _ hrest]
      have h0 := h 0 (by simp)
      simp only [Nat.add_zero] at h0
      simp [setInt16LE, setUint8, h0.1, h0.2]

theorem writeFrames_at (ba off : Nat) (hoff : off + 1 < ba) :
    ∀ (ch : List ℚ) (j : Nat) (m : Mem) (i0 : Nat), j < ch.length →
      writeFrames ba off m i0 ch (44 + (i0 + j) * ba + off)
        = (pcm16 (ch.getD j 0) % 65536).toNat % 256 ∧
      writeFrames ba off m i0 ch (44 + (i0 + j) * ba + off + 1)
        = (pcm16 (ch.getD j 0) % 65536).toNat / 256 % 256 := by
  intro ch
  induction ch with
  | nil => intro j m i0 h; simp at h
  | cons s rest ih =>
      intro j m i0 hj
      match j with
      | 0 =>
          have hmul : ∀ j' : Nat, i0 * ba + ba ≤ (i0 + 1 + j') * ba := by
            intro j'
            calc i0 * ba + ba = (i0 + 1) * ba := by ring
            _ ≤ (i0 + 1 + j') * ba := Nat.mul_le_mul_right ba (by omega)
          have hskip : ∀ d : Nat, d ≤ 1 →
              ∀ j', j' < rest.length →
                44 + i0 * ba + off + d ≠ 44 + (i0 + 1 + j') * ba + off ∧
                44 + i0 * ba + off + d ≠ 44 + (i0 + 1 + j') * ba + off + 1 := by
            intro d hd j' _
            have := hmul j'
            omega
          simp only [Nat.add_zero, List.getD_cons_zero]
          constructor
          · show writeFrames ba off (setInt16LE m (44 + i0 * ba + off) (pcm16 s)) (i0 + 1)
              rest (44 + i0 * ba + off) = _
            rw [writeFrames_skip ba off rest _ _ _
              (fun j' hj' => by simpa using hskip 0 (by omega) j' hj')]
            simp [setInt16LE, setUint8]
          · show writeFrames ba off (setInt16LE m (44 + i0 * ba + off) (pcm16 s)) (i0 + 1)
              rest (44 + i0 * ba + off + 1) = _
            rw [writeFrames_skip ba off rest _ _ _
              (fun j' hj' => hskip 1 (by omega) j' hj')]
            simp [setInt16LE, setUint8]
      | j' + 1 =>
          have hj' : j' < rest.length := by simpa using Nat.lt_of_succ_lt_succ hj
          have harr : i0 + (j' + 1) = i0 + 1 + j' := by omega
          simp only [List.getD_cons_succ, harr]
          exact ih j' (setInt16LE m (44 + i0 * ba + off) (pcm16 s)) (i0 + 1) hj'

theorem writeData_skip (ba : Nat) :
    ∀ (chs : List (List ℚ)) (m : Mem) (c0 k : Nat),
      (∀ c', c' < chs.length → ∀ j, j < (chs.getD c' []).length →
        k ≠ 44 + j * ba + (c0 + c') * 2 ∧ k ≠ 44 + j * ba + (c0 + c') * 2 + 1) →
      writeData ba m c0 chs k = m k := by
  intro chs
  induction chs with
  | nil => intro m c0 k _; rfl
  | cons ch rest ih =>
      intro m c0 k h
      show writeData ba (writeFrames ba (c0 * 2) m 0 ch) (c0 + 1) rest k = m k
      have hrest : ∀ c', c' < rest.length → ∀ j, j < (rest.getD c' []).length →
          k ≠ 44 + j * ba + (c0 + 1 + c') * 2 ∧ k ≠ 44 + j * ba + (c0 + 1 + c') * 2 + 1 := by
        intro c' hc' j hj
        have h' := h (c' + 1) (by simp; omega) j (by simpa using hj)
        rw [show c0 + (c' + 1) = c0 + 1 + c' by omega] at h'
        exact h'
      rw [ih _ _ _ hrest]
      refine writeFrames_skip ba (c0 * 2) ch m 0 k ?_
      intro j hj
      have h0 := h 0 (by simp) j (by simpa using hj)
      simpa using h0

theorem writeData_at (nch : Nat) :
    ∀ (chs : List (List ℚ)) (c0 : Nat) (m : Mem) (c i : Nat),
      c < chs.length → c0 + chs.length ≤ nch → i < (chs.getD c []).length →
      writeData (nch * 2) m c0 chs (44 + i * (nch * 2) + (c0 + c) * 2)
        = (pcm16 ((chs.getD c []).getD i 0) % 65536).toNat % 256 ∧
      writeData (nch * 2) m c0 chs (44 + i * (nch * 2) + (c0 + c) * 2 + 1)
        = (pcm16 ((chs.getD c []).getD i 0) % 65536).toNat / 256 % 256 := by
  intro chs
  induction chs with
  | nil => intro c0 m c i hc _ _; simp at hc
  | cons ch rest ih =>
      intro c0 m c i hc hle hi
      have hc0 : c0 < nch := by simp at hle; omega
      cases c with
      | zero =>
          simp only [Nat.add_zero, List.getD_cons_zero] at hi ⊢
          have hi' : i < ch.length := hi
          have hskip : ∀ d : Nat, d ≤ 1 →
              ∀ c', c' < rest.length → ∀ j, j < (rest.getD c' []).length →
                44 + i * (nch * 2) + c0 * 2 + d ≠ 44 + j * (nch * 2) + (c0 + 1 + c') * 2 ∧
                44 + i * (nch * 2) + c0 * 2 + d ≠ 44 + j * (nch * 2) + (c0 + 1 + c') * 2 + 1 := by
            intro d hd c' hc' j _
            have hc1 : c0 + 1 + c' < nch := by simp at hle; omega
            constructor
            · intro he
              exact resid_ne (nch * 2) i j (c0 * 2 + d) ((c0 + 1 + c') * 2)
                (by omega) (by omega) (by omega) (by omega)
            · intro he
              exact resid_ne (nch * 2) i j (c0 * 2 + d) ((c0 + 1 + c') * 2 + 1)
                (by omega) (by omega) (by omega) (by omega)
          have hhit := writeFrames_at (nch * 2) (c0 * 2) (by omega) ch i m 0 hi'
          simp only [Nat.zero_add] at hhit
          constructor
          · show writeData (nch * 2) (writeFrames (nch * 2) (c0 * 2) m 0 ch) (c0 + 1) rest _ = _
            rw [writeData_skip (nch * 2) rest _ (c0 + 1) _
              (fun c' hc' j hj => by simpa using hskip 0 (by omega) c' hc' j hj)]
            exact hhit.1
          · show writeData (nch * 2) (writeFrames (nch * 2) (c0 * 2) m 0 ch) (c0 + 1) rest _ = _
            rw [writeData_skip (nch * 2) rest _ (c0 + 1) _
              (fun c' hc' j hj => hskip 1 (by omega) c' hc' j hj)]
            exact hhit.2
      | succ c' =>
          have hc'' : c' < rest.length := by simpa using Nat.lt_of_succ_lt_succ hc
          have harr : c0 + (c' + 1) = c0 + 1 + c' := by omega
          simp only [List.getD_cons_succ, harr] at hi ⊢
          have hskipch : ∀ j, j < ch.length →
              44 + i * (nch * 2) + (c0 + 1 + c') * 2 ≠ 44 + (0 + j) * (nch * 2) + c0 * 2 ∧
              44 + i * (nch * 2) + (c0 + 1 + c') * 2 ≠ 44 + (0 + j) * (nch * 2) + c0 * 2 + 1 := by
            intro j _
            have hc1 : c0 + 1 + c' < nch := by simp at hle; omega
            simp only [Nat.zero_add]
            constructor
            · intro he
              exact resid_ne (nch * 2) i j ((c0 + 1 + c') * 2) (c0 * 2)
                (by omega) (by omega) (by omega) (by omega)
            · intro he
              exact resid_ne (nch * 2) i j ((c0 + 1 + c') * 2) (c0 * 2 + 1)
                (by omega) (by omega) (by omega) (by omega)
          have hskipch1 : ∀ j, j < ch.length →
              44 + i * (nch * 2) + (c0 + 1 + c') * 2 + 1 ≠ 44 + (0 + j) * (nch * 2) + c0 * 2 ∧
              44 + i * (nch * 2) + (c0 + 1 + c') * 2 + 1 ≠ 44 + (0 + j) * (nch * 2) + c0 * 2 + 1 := by
            intro j _
            have hc1 : c0 + 1 + c' < nch := by simp at hle; omega
            simp only [Nat.zero_add]
            constructor
            · intro he
              exact resid_ne (nch * 2) i j ((c0 + 1 + c') * 2 + 1) (c0 * 2)
                (by omega) (by omega) (by omega) (by omega)
            · intro he
              exact resid_ne (nch * 2) i j ((c0 + 1 + c') * 2 + 1) (c0 * 2 + 1)
                (by omega) (by omega) (by omega) (by omega)
          have hle' : c0 + 1 + rest.length ≤ nch := by simp at hle; omega
          have := ih (c0 + 1) (writeFrames (nch * 2) (c0 * 2) m 0 ch) c' i hc'' hle' hi
          exact this

theorem wavByte (buf : SampleBuffer) (k : Nat)
    (hk : k < 44 + buf.frameCount * (buf.channelCount * 2)) :
    (audioBufferToWav buf).getD k 0 = wavMem buf k := by
  unfold audioBufferToWav
  rw [List.getD_eq_getElem _ _ (by simpa using hk)]
  simp

/-- C6: in the encoded data section, the 16-bit sample of frame `i`, channel `c`
sits little-endian at byte offset `44 + i·blockAlign + c·2` (blockAlign =
channelCount·2) — frame-major channel-interleaved layout, although the
encoder's loops are channel-major. -/
theorem wav_data_interleaved (buf : SampleBuffer) (hwf : buf.WF) (i c : Nat)
    (hi : i < buf.frameCount) (hc : c < buf.channelCount) :
    (audioBufferToWav buf).getD (44 + i * (buf.channelCount * 2) + c * 2) 0
      = (pcm16 ((buf.channels.getD c []).getD i 0) % 65536).toNat % 256 ∧
    (audioBufferToWav buf).getD (44 + i * (buf.channelCount * 2) + c * 2 + 1) 0
      = (pcm16 ((buf.channels.getD c []).getD i 0) % 65536).toNat / 256 % 256 := by
  obtain ⟨hlen, hch⟩ := hwf
  have hcl : c < buf.channels.length := by rw [hlen]; exact hc
  have hmem : buf.channels.getD c [] ∈ buf.channels := by
    rw [List.getD_eq_getElem _ _ hcl]
    exact List.getElem_mem hcl
  have hi' : i < (buf.channels.getD c []).length := by
    rw [hch _ hmem]; exact hi
  have hbound : i * (buf.channelCount * 2) + (c * 2 + 1) < buf.frameCount * (buf.channelCount * 2) := by
    have h1 : i * (buf.channelCount * 2) + buf.channelCount * 2
        = (i + 1) * (buf.channelCount * 2) := by ring
    have h2 : (i + 1) * (buf.channelCount * 2) ≤ buf.frameCount * (buf.channelCount * 2) :=
      Nat.mul_le_mul_right _ (by omega)
    omega
  have hat := writeData_at buf.channelCount buf.channels 0 (wavHeaderMem buf.channelCount
    buf.frameCount buf.sampleRate) c i hcl (by omega) hi'
  simp only [Nat.zero_add] at hat
  constructor
  · rw [wavByte buf _ (by omega)]
    exact hat.1
  · rw [wavByte buf _ (by omega)]
    exact hat.2

theorem truncQ_intCast (n : ℤ) : truncQ ((n : ℚ)) = n := by
  unfold truncQ
  by_cases hn : ((n : ℚ)) < 0
  · rw [if_pos hn]
    have hn' : n < 0 := by exact_mod_cast hn
    rw [Rat.num_intCast, Rat.den_intCast]
    simp
    omega
  · rw [if_neg hn]
    have hn' : 0 ≤ n := by
      have := not_lt.mp hn
      exact_mod_cast this
    rw [Rat.num_intCast, Rat.den_intCast]
    simp
    omega

/-- C6 witness: in `demoBuf2`, frame 1 of channel 0 holds `-1/2`
(`pcm16 = -16384`, two's complement `49152` = bytes `0, 192`), written at byte
offsets `48` and `49` = `44 + 1·blockAlign + 0·2` with `blockAlign = 4`. -/
theorem wav_data_interleaved_witness :
    (audioBufferToWav demoBuf2).getD 48 0 = 0 ∧ (audioBufferToWav demoBuf2).getD 49 0 = 192 := by
  have hp : pcm16 ((demoBuf2.channels.getD 0 []).getD 1 0) = -16384 := by
    show pcm16 (-(1/2) : ℚ) = -16384
    unfold pcm16
    have hcl : clampSample (-(1/2) : ℚ) = -(1/2) := by
      unfold clampSample
      rw [min_eq_right (by norm_num), max_eq_right (by norm_num)]
    rw [hcl, if_pos (by norm_num)]
    rw [show (-(1/2) : ℚ) * 32768 = ((-16384 : ℤ) : ℚ) by norm_num]
    rw [truncQ_intCast]
  have h := wav_data_interleaved demoBuf2 (by decide) 1 0 (by decide) (by decide)
  rw [hp] at h
  exact ⟨h.1.trans (by decide), h.2.trans (by decide)⟩

/-! ### Sample conversion (claim C2) -/

/-- C2: the encoder's float-to-16-bit conversion first clamps to `[-1, 1]`
(so it is unchanged by pre-clamping), and scales negatives by 32768 and
non-negatives by 32767; `1.5` encodes like exactly `1.0` (32767) and `-1.5`
like exactly `-1.0` (-32768). -/
theorem pcm16_clamp_scale :
    (∀ s : ℚ, pcm16 s = pcm16 (max (-1) (min 1 s))) ∧
    pcm16 (3/2) = pcm16 1 ∧ pcm16 1 = 32767 ∧
    pcm16 (-(3/2)) = pcm16 (-1) ∧ pcm16 (-1) = -32768 := by
  have hc32 : clampSample (3/2 : ℚ) = 1 := by
    unfold clampSample
    rw [min_eq_left (by norm_num), max_eq_right (by norm_num)]
  have hc1 : clampSample (1 : ℚ) = 1 := by
    unfold clampSample
    rw [min_eq_left (by norm_num), max_eq_right (by norm_num)]
  have hcm32 : clampSample (-(3/2) : ℚ) = -1 := by
    unfold clampSample
    rw [min_eq_right (by norm_num), max_eq_left (by norm_num)]
  have hcm1 : clampSample (-1 : ℚ) = -1 := by
    unfold clampSample
    rw [min_eq_right (by norm_num), max_eq_left (by norm_num)]
  refine ⟨?_, ?_, ?_, ?_, ?_⟩
  · intro s
    have h1 : max (-1 : ℚ) (min 1 s) ≤ 1 := max_le (by norm_num) (min_le_left _ _)
    have hcl : clampSample (max (-1) (min 1 s)) = clampSample s := by
      unfold clampSample
      rw [min_eq_right h1, ← max_assoc, max_self]
    unfold pcm16
    rw [hcl]
  · unfold pcm16
    rw [hc32, hc1]
  · unfold pcm16
    rw [hc1, if_neg (by norm_num)]
    rw [show (1 : ℚ) * 32767 = ((32767 : ℤ) : ℚ) by norm_num]
    rw [truncQ_intCast]
  · unfold pcm16
    rw [hcm32, hcm1]
  · unfold pcm16
    rw [hcm1, if_pos (by norm_num)]
    rw [show (-1 : ℚ) * 32768 = ((-32768 : ℤ) : ℚ) by norm_num]
    rw [truncQ_intCast]

/-! ### Empty-buffer failure (claim C3) -/

/-- C3 (spec-modelled renderer): rendering a buffer with zero frames or zero
channels fails fast with `EmptyBufferError`, and the render-then-encode
pipeline produces no byte sequence. -/
theorem render_empty_fails (coeffOf : FilterConfig → Nat → BiquadCoefficients)
    (cfgs : List FilterConfig) (buf : SampleBuffer)
    (h : buf.frameCount = 0 ∨ buf.channelCount = 0) :
    render coeffOf cfgs buf = Except.error PipelineError.emptyBufferError ∧
    renderAndEncode coeffOf cfgs buf = Except.error PipelineError.emptyBufferError := by
  have hcond : buf.channelCount = 0 ∨ buf.frameCount = 0 := h.symm
  constructor
  · unfold render
    rw [if_pos hcond]
  · unfold renderAndEncode render
    rw [if_pos hcond]
    rfl

/-- C3 witness: a 2-channel, 0-frame buffer is rejected with `EmptyBufferError`
and nothing is encoded. -/
theorem render_empty_fails_witness :
    render coeffOf0 filters emptyBuf = Except.error PipelineError.emptyBufferError ∧
    renderAndEncode coeffOf0 filters emptyBuf = Except.error PipelineError.emptyBufferError :=
  render_empty_fails coeffOf0 filters emptyBuf (Or.inl rfl)

/-! ### Shape preservation (claim C5) -/

theorem biquadRun_length (c : BiquadCoefficients) :
    ∀ (st : BiquadState) (xs : List ℚ), (biquadRun c st xs).length = xs.length := by
  intro st xs
  induction xs generalizing st with
  | nil => rfl
  | cons x rest ih => simpa [biquadRun] using ih _

theorem biquadApply_length (c : BiquadCoefficients) (xs : List ℚ) :
    (biquadApply c xs).length = xs.length :=
  biquadRun_length c _ xs

theorem chain_foldl_length (coeffOf : FilterConfig → Nat → BiquadCoefficients) (sr : Nat) :
    ∀ (l : List FilterConfig) (xs : List ℚ),
      (l.foldl (fun ys cfg => biquadApply (coeffOf cfg sr) ys) xs).length = xs.length := by
  intro l
  induction l with
  | nil => intro xs; rfl
  | cons cfg rest ih =>
      intro xs
      simpa [List.foldl_cons, biquadApply_length] using
        (ih (biquadApply (coeffOf cfg sr) xs)).trans (biquadApply_length _ _)

theorem applyChain_length (coeffOf : FilterConfig → Nat → BiquadCoefficients)
    (cfgs : List FilterConfig) (sr : Nat) (xs : List ℚ) :
    (applyChain coeffOf cfgs sr xs).length = xs.length :=
  chain_foldl_length coeffOf sr (sortFilters cfgs) xs

/-- C5 (spec-modelled renderer): a successful render preserves `channelCount`,
`frameCount` and `sampleRate`, and preserves the buffer invariant (the output
channels really have `frameCount` samples each). -/
theorem render_shape_preserved (coeffOf : FilterConfig → Nat → BiquadCoefficients)
    (cfgs : List FilterConfig) (buf out : SampleBuffer)
    (h : render coeffOf cfgs buf = Except.ok out) :
    out.channelCount = buf.channelCount ∧ out.frameCount = buf.frameCount ∧
    out.sampleRate = buf.sampleRate ∧ (buf.WF → out.WF) := by
  unfold render at h
  by_cases hc : buf.channelCount = 0 ∨ buf.frameCount = 0
  · rw [if_pos hc] at h
    exact absurd h (by simp)
  · rw [if_neg hc] at h
    have hrec := Except.ok.inj h
    rw [← hrec]
    refine ⟨rfl, rfl, rfl, ?_⟩
    rintro ⟨hlen, hch⟩
    constructor
    · simpa using hlen
    · intro ch hchm
      obtain ⟨ch0, hch0, rfl⟩ := List.mem_map.mp hchm
      simpa [applyChain_length] using hch ch0 hch0

/-- C5 witness: a concrete successful render (1 channel, 2 frames) preserves
the three shape fields and the invariant. -/
theorem render_shape_preserved_witness :
    demoOut1.channelCount = demoBuf1.channelCount ∧ demoOut1.frameCount = demoBuf1.frameCount ∧
    demoOut1.sampleRate = demoBuf1.sampleRate ∧ (demoBuf1.WF → demoOut1.WF) :=
  render_shape_preserved coeffOf0 [] demoBuf1 demoOut1 rfl

/-! ### Stable sort and cascade order (claim C4) -/

theorem filter_orderedInsert_freq (q : ℚ) (x : FilterConfig) :
    ∀ l : List FilterConfig,
      (List.orderedInsert freqLE x l).filter (fun f => decide (f.freq = q))
        = if x.freq = q then x :: l.filter (fun f => decide (f.freq = q))
          else l.filter (fun f => decide (f.freq = q)) := by
  intro l
  induction l with
  | nil =>
      by_cases hx : x.freq = q <;> simp [List.orderedInsert, List.filter, hx]
  | cons b t ih =>
      show (if freqLE x b then x :: b :: t else b :: List.orderedInsert freqLE x t).filter _ = _
      by_cases hle : freqLE x b
      · rw [if_pos hle]
        by_cases hx : x.freq = q <;> simp [List.filter_cons, hx]
      · rw [if_neg hle]
        have hblt : b.freq < x.freq := lt_of_not_le hle
        rw [List.filter_cons, List.filter_cons]
        by_cases hb : b.freq = q
        · have hx : ¬ x.freq = q := by
            intro hxq
            rw [hxq, ← hb] at hblt
            exact lt_irrefl _ hblt
          simp [hb, hx, ih]
        · simp [hb, ih]

theorem filter_sortFilters (q : ℚ) :
    ∀ l : List FilterConfig,
      (sortFilters l).filter (fun f => decide (f.freq = q))
        = l.filter (fun f => decide (f.freq = q)) := by
  intro l
  induction l with
  | nil => rfl
  | cons x t ih =>
      unfold sortFilters at ih
      show (List.orderedInsert freqLE x (List.insertionSort freqLE t)).filter _ = _
      rw [filter_orderedInsert_freq]
      by_cases hx : x.freq = q
      · rw [if_pos hx, ih, List.filter_cons]
        simp [hx]
      · rw [if_neg hx, ih, List.filter_cons]
        simp [hx]

theorem chain_foldl_nil (coeffOf : FilterConfig → Nat → BiquadCoefficients) (sr : Nat) :
    ∀ l : List FilterConfig,
      l.foldl (fun ys cfg => biquadApply (coeffOf cfg sr) ys) ([] : List ℚ) = [] := by
  intro l
  induction l with
  | nil => rfl
  | cons cfg rest ih => simpa [List.foldl_cons, biquadApply] using ih

/-- C4: the renderer's filter order is the stable ascending-by-`freq` sort of
the config list — sorted, a permutation, and equal-`freq` entries keep their
original relative order — and (spec-modelled cascade) a successful render runs
every channel through exactly those stages in series, with the same
coefficients for every channel. -/
theorem filter_chain_order (cfgs : List FilterConfig) :
    List.Sorted freqLE (sortFilters cfgs) ∧
    (sortFilters cfgs).Perm cfgs ∧
    (∀ q : ℚ, (sortFilters cfgs).filter (fun f => decide (f.freq = q))
      = cfgs.filter (fun f => decide (f.freq = q))) ∧
    (∀ (coeffOf : FilterConfig → Nat → BiquadCoefficients) (buf out : SampleBuffer),
      render coeffOf cfgs buf = Except.ok out →
      ∀ j : Nat, out.channels.getD j []
        = (sortFilters cfgs).foldl
            (fun ys cfg => biquadApply (coeffOf cfg buf.sampleRate) ys)
            (buf.channels.getD j [])) := by
  refine ⟨List.sorted_insertionSort freqLE cfgs, List.perm_insertionSort freqLE cfgs,
    fun q => filter_sortFilters q cfgs, ?_⟩
  intro coeffOf buf out h j
  unfold render at h
  by_cases hc : buf.channelCount = 0 ∨ buf.frameCount = 0
  · rw [if_pos hc] at h
    exact absurd h (by simp)
  · rw [if_neg hc] at h
    have hrec := Except.ok.inj h
    rw [← hrec]
    rcases Nat.lt_or_ge j buf.channels.length with hj | hj
    · show (buf.channels.map (applyChain coeffOf cfgs buf.sampleRate)).getD j [] = _
      rw [List.getD_eq_getElem _ _ (by simpa using hj), List.getElem_map,
        List.getD_eq_getElem _ _ hj]
      rfl
    · show (buf.channels.map (applyChain coeffOf cfgs buf.sampleRate)).getD j [] = _
      rw [List.getD_eq_default _ _ (by simpa using hj), List.getD_eq_default _ _ hj,
        chain_foldl_nil]

/-- C4 witness: instantiated at the static config list (sortedness and
stability at `freq = 170`) and at a concrete successful render. -/
theorem filter_chain_order_witness :
    List.Sorted freqLE (sortFilters filters) ∧
    (sortFilters filters).filter (fun f => decide (f.freq = (170 : ℚ)))
      = filters.filter (fun f => decide (f.freq = (170 : ℚ))) ∧
    demoOut1.channels.getD 0 []
      = (sortFilters ([] : List FilterConfig)).foldl
          (fun ys cfg => biquadApply (coeffOf0 cfg demoBuf1.sampleRate) ys)
          (demoBuf1.channels.getD 0 []) :=
  ⟨(filter_chain_order filters).1, (filter_chain_order filters).2.2.1 170,
    (filter_chain_order ([] : List FilterConfig)).2.2.2 coeffOf0 demoBuf1 demoOut1 rfl 0⟩

/-! ### Static configuration (claim C7) -/

/-- C7: the static configuration is exactly the four documented entries, in
order: peaking 170 Hz / +9.9 dB / Q 1.76, peaking 662 Hz / -8.0 dB / Q 3.0,
peaking 3000 Hz / -11.2 dB / Q 2.76, highshelf 7410 Hz / +10 dB / Q absent. -/
theorem filters_static_config :
    filters.length = 4 ∧
    filters = [ { type := FilterType.peaking, freq := 170, gain := 9.9, Q := some 1.76 },
                { type := FilterType.peaking, freq := 662, gain := -8.0, Q := some 3.0 },
                { type := FilterType.peaking, freq := 3000, gain := -11.2, Q := some 2.76 },
                { type := FilterType.highshelf, freq := 7410, gain := 10, Q := none } ] :=
  ⟨rfl, rfl⟩

/-! ### Host size gate (claim C8) -/

/-- C8 counterexample: a 0-byte file of unsupported MIME type is rejected by
the host although its size does not exceed 1 GiB, so "rejected iff size >
1 GiB" is false as stated over all input files. -/
theorem size_gate_counterexample :
    ¬ ((fileGate ("text/plain") 0 ≠ none) ↔ 1073741824 < 0) := by decide

/-- C8 amended: among inputs whose MIME type passes the type gate, the host
rejects if and only if the size strictly exceeds 1,073,741,824 bytes, and an
input of exactly 1,073,741,824 bytes passes. -/
theorem size_gate_amended (mime : String) (size : Nat) (h : mime ∈ SUPPORTED_AUDIO_TYPES) :
    ((fileGate mime size ≠ none) ↔ 1073741824 < size) ∧ fileGate mime 1073741824 = none := by
  have hgate : ∀ sz : Nat, fileGate mime sz
      = if MAX_FILE_SIZE < sz then some HostRejection.oversize else none := by
    intro sz
    unfold fileGate
    rw [if_neg (by simpa using h)]
  have hmax : MAX_FILE_SIZE = 1073741824 := rfl
  constructor
  · rw [hgate]
    by_cases hs : MAX_FILE_SIZE < size
    · rw [if_pos hs]
      simp only [ne_eq, reduceCtorEq, not_false_eq_true, true_iff]
      omega
    · rw [if_neg hs]
      simp only [ne_eq, not_true_eq_false, false_iff, not_lt]
      omega
  · rw [hgate, if_neg (by omega)]

/-- C8 witness: a supported-type file of 1 GiB + 1 byte is rejected, and one of
exactly 1 GiB passes. -/
theorem size_gate_amended_witness :
    ((fileGate ("audio/wav") 1073741825 ≠ none) ↔ 1073741824 < 1073741825) ∧
    fileGate ("audio/wav") 1073741824 = none :=
  size_gate_amended ("audio/wav") 1073741825 (by decide)

/-! ### Download filename (claim C9) -/

theorem lastIndexOf_none_iff (c : Char) :
    ∀ l : List Char, lastIndexOf c l = none ↔ c ∉ l := by
  intro l
  induction l with
  | nil => simp [lastIndexOf]
  | cons x xs ih =>
      unfold lastIndexOf
      cases hx : lastIndexOf c xs with
      | some i =>
          have hc : c ∈ xs := by
            by_contra hcn
            have := ih.mpr hcn
            rw [hx] at this
            exact Option.noConfusion this
          simp [List.mem_cons, hc]
      | none =>
          have hc : c ∉ xs := ih.mp hx
          by_cases hxc : x = c
          · simp [hxc, List.mem_cons]
          · have hcx : ¬ c = x := fun hcx => hxc hcx.symm
            simp [hxc, List.mem_cons, hc, hcx]

theorem lastIndexOf_spec (c : Char) :
    ∀ (l : List Char) (i : Nat), lastIndexOf c l = some i →
      l.drop i = c :: l.drop (i + 1) ∧ c ∉ l.drop (i + 1) := by
  intro l
  induction l with
  | nil => intro i h; exact Option.noConfusion h
  | cons x xs ih =>
      intro i h
      unfold lastIndexOf at h
      cases hx : lastIndexOf c xs with
      | some j =>
          rw [hx] at h
          injection h with h'
          subst h'
          obtain ⟨h1, h2⟩ := ih j hx
          refine ⟨?_, ?_⟩
          · simpa [List.drop_succ_cons] using h1
          · simpa [List.drop_succ_cons] using h2
      | none =>
          rw [hx] at h
          by_cases hxc : x = c
          · rw [if_pos hxc] at h
            injection h with h'
            subst h'
            refine ⟨by simp [hxc], ?_⟩
            simpa using (lastIndexOf_none_iff c xs).mp hx
          · rw [if_neg hxc] at h
            exact Option.noConfusion h

/-- C9: the download name inserts "-EQ" immediately before the last dot of the
input name; a dotless name gets "-EQ" appended. -/
theorem newFileName_insert_eq (name : List Char) :
    (('.') ∉ name → newFileName name = name ++ ("-EQ").toList) ∧
    (('.') ∈ name → ∃ p s, name = p ++ ('.') :: s ∧ ('.') ∉ s ∧
      newFileName name = p ++ ("-EQ").toList ++ ('.') :: s) := by
  constructor
  · intro hn
    unfold newFileName
    rw [(lastIndexOf_none_iff _ name).mpr hn]
  · intro hm
    cases hLI : lastIndexOf ('.') name with
    | none => exact absurd hm ((lastIndexOf_none_iff _ name).mp hLI)
    | some i =>
        obtain ⟨h1, h2⟩ := lastIndexOf_spec _ name i hLI
        refine ⟨name.take i, name.drop (i + 1), ?_, h2, ?_⟩
        · conv_lhs => rw [← List.take_append_drop i name]
          rw [h1]
        · unfold newFileName
          rw [hLI]
          show name.take i ++ ("-EQ").toList ++ name.drop i = _
          rw [h1]

/-- C9 witness: a dotless name gets "-EQ" appended. -/
theorem newFileName_insert_eq_witness :
    newFileName (("song").toList) = ("song").toList ++ ("-EQ").toList :=
  (newFileName_insert_eq (("song").toList)).1 (by decide)

/-! ### No mutation of the static config (claim C10) -/

/-- C10: one run sorts a fresh copy — the array the run reads is the stable
sort of the `filters` contents, while the array at the original reference is
untouched; consequently after any number of runs the store still holds the
original four entries in their original order at reference 0. -/
theorem filters_never_mutated :
    (∀ h : List (List FilterConfig), 0 < h.length →
      (spreadSort h 0).1.getD 0 [] = h.getD 0 [] ∧
      (spreadSort h 0).1.getD (spreadSort h 0).2 [] = sortFilters (h.getD 0 [])) ∧
    (∀ n : Nat, (runsFrom [filters] n).getD 0 [] = filters) := by
  have key : ∀ h : List (List FilterConfig), 0 < h.length →
      (spreadSort h 0).1.getD 0 [] = h.getD 0 [] ∧
      (spreadSort h 0).1.getD (spreadSort h 0).2 [] = sortFilters (h.getD 0 []) := by
    intro h hh
    unfold spreadSort
    have hne : h.length ≠ 0 := by omega
    have happ : (h ++ [h.getD 0 []]).getD h.length [] = h.getD 0 [] := by
      rw [List.getD_append_right _ _ _ _ (le_refl _)]
      simp
    constructor
    · rw [List.getD_eq_getElem?_getD, List.getElem?_set_ne hne, ← List.getD_eq_getElem?_getD]
      rw [List.getD_append _ _ _ _ hh]
    · have hlt : h.length < (h ++ [h.getD 0 []]).length := by simp
      rw [List.getD_eq_getElem _ _ (by simp), List.getElem_set_self _, happ]
  refine ⟨key, ?_⟩
  have hpos : ∀ k : Nat, 0 < (runsFrom [filters] k).length := by
    intro k
    induction k with
    | zero => simp [runsFrom]
    | succ k2 _ =>
        show 0 < (spreadSort (runsFrom [filters] k2) 0).1.length
        unfold spreadSort
        simp
  intro n
  induction n with
  | zero => rfl
  | succ k ihk =>
      show (spreadSort (runsFrom [filters] k) 0).1.getD 0 [] = filters
      rw [(key _ (hpos k)).1, ihk]

/-- C10 witness: starting from the store `[filters]`, one run leaves the
`filters` array unchanged and reads its stable sort, and three runs still
leave the original entries at reference 0. -/
theorem filters_never_mutated_witness :
    ((spreadSort [filters] 0).1.getD 0 [] = ([filters]).getD 0 [] ∧
      (spreadSort [filters] 0).1.getD (spreadSort [filters] 0).2 []
        = sortFilters (([filters]).getD 0 [])) ∧
    (runsFrom [filters] 3).getD 0 [] = filters :=
  ⟨filters_never_mutated.1 [filters] (by decide), filters_never_mutated.2 3⟩

end LightbriteEq
